import Mathlib

/-!
Shallow embedding of the line-movement engine of the `prompt-input-area`
repository (the `moveSelectedLine` function of the textarea line-movement
hook), together with proofs of the specified properties.

The buffer is modelled as a list of characters (`Buffer`); JavaScript
strings become `List Char`, `split("\n")` becomes `List.splitOn '\n'`,
`join("\n")` becomes `List.intercalate ['\n']`.  JavaScript number
subtraction on indices is modelled with `Int` arithmetic wherever the
source can produce a negative intermediate value that `Array.prototype`
methods clamp to zero (`splice` delete counts); in-range index reads
(`a[i]`) are modelled with `List.getD`.  The scroll computation uses exact
rational arithmetic in place of IEEE doubles.
-/

namespace PromptArea

/-- The `Direction` type of the source: `"up" | "down"`. -/
inductive Direction where
  | up : Direction
  | down : Direction
deriving DecidableEq, Repr

/-- A text buffer: the raw character content of the textarea. -/
abbrev Buffer := List Char

/-- `value.split("\n")` from the source. -/
def splitLines (value : Buffer) : List Buffer :=
  value.splitOn '\n'

/-- `lines.join("\n")` from the source. -/
def joinLines (lines : List Buffer) : Buffer :=
  List.intercalate ['\n'] lines

/-- The line number holding an absolute offset, as the source computes it:
`value.substring(0, off).split("\n").length - 1`. -/
def lineNumberOf (value : Buffer) (off : Nat) : Nat :=
  ((value.take off).splitOn '\n').length - 1

/-- Helper for `lineOffsets`: builds the offset list with a running
accumulator, mirroring the source's `reduce` that pushes
`acc[i-1] + lines[i-1].length + 1` for each successive line. -/
def lineOffsetsFrom (acc : Nat) : List Buffer → List Nat
  | [] => []
  | l :: ls => acc :: lineOffsetsFrom (acc + l.length + 1) ls

/-- The source's `lineOffsets` reduce: absolute offset of each line's first
character. -/
def lineOffsets (lines : List Buffer) : List Nat :=
  lineOffsetsFrom 0 lines

/-- `xs.splice(p, 0, ...ins)` from the source: insert `ins` at index `p`
(JavaScript clamps `p` to the array length, as `take`/`drop` do). -/
def jsSpliceInsert (xs : List Buffer) (p : Nat) (ins : List Buffer) : List Buffer :=
  xs.take p ++ ins ++ xs.drop p

/-- Result of one engine invocation: the new buffer handed to `onChange`
and the selection range passed to `setSelectionRange` in the post-render
callback. -/
structure MoveResult where
  buffer : Buffer
  selStart : Nat
  selEnd : Nat
deriving DecidableEq, Repr

/-- Shallow embedding of `moveSelectedLine(direction, shouldCopy)` from the
line-movement hook, lines 61–208 of the source file.  Inputs are the raw
textarea `value` and the host's `selectionStart`/`selectionEnd`; the output
is the new buffer and the final selection range computed in the deferred
callback.  The scroll computation is embedded separately as
`computeScrollTop`. -/
def moveSelectedLine (value : Buffer) (selectionStart selectionEnd : Nat)
    (direction : Direction) (shouldCopy : Bool) : MoveResult :=
  let lines := splitLines value
  let startLineNumber := lineNumberOf value selectionStart
  let endLineNumber := lineNumberOf value selectionEnd
  if !shouldCopy ∧
      ((direction = Direction.up ∧ startLineNumber = 0) ∨
        (direction = Direction.down ∧ endLineNumber = lines.length - 1)) then
    ⟨value, selectionStart, selectionEnd⟩
  else
    let lineOffs := lineOffsets lines
    let isMultiLineSelection : Bool := startLineNumber ≠ endLineNumber
    let selectionStartOffset := selectionStart - lineOffs.getD startLineNumber 0
    let selectionEndOffset := selectionEnd - lineOffs.getD endLineNumber 0
    let swapIndex := if direction = Direction.up then startLineNumber - 1 else endLineNumber + 1
    let newLines :=
      if shouldCopy then
        if isMultiLineSelection then
          let selectedLines := (lines.drop startLineNumber).take (endLineNumber + 1 - startLineNumber)
          let insertPosition :=
            if direction = Direction.up then startLineNumber else endLineNumber + 1
          jsSpliceInsert lines insertPosition selectedLines
        else
          let insertPosition :=
            if direction = Direction.up then startLineNumber else startLineNumber + 1
          jsSpliceInsert lines insertPosition [lines.getD startLineNumber []]
      else
        if isMultiLineSelection then
          let deleteCount := ((endLineNumber : Int) - (startLineNumber : Int) + 1).toNat
          let selectedLines := (lines.drop startLineNumber).take deleteCount
          let remainder := lines.take startLineNumber ++ lines.drop (startLineNumber + deleteCount)
          let insertIndex :=
            if direction = Direction.up then swapIndex
            else ((swapIndex : Int) - (selectedLines.length : Int) + 1).toNat
          jsSpliceInsert remainder insertIndex selectedLines
        else
          (lines.set startLineNumber (lines.getD swapIndex [])).set swapIndex
            (lines.getD startLineNumber [])
    let newLineOffs := lineOffsets newLines
    let newStartLine :=
      if shouldCopy then
        if direction = Direction.up then startLineNumber else startLineNumber + 1
      else
        if direction = Direction.up then startLineNumber - 1 else startLineNumber + 1
    let newEndLine :=
      if shouldCopy then
        if direction = Direction.up then endLineNumber else endLineNumber + 1
      else
        if direction = Direction.up then endLineNumber - 1 else endLineNumber + 1
    let newSelectionStart := newLineOffs.getD newStartLine 0 + selectionStartOffset
    let newSelectionEnd :=
      if isMultiLineSelection then newLineOffs.getD newEndLine 0 + selectionEndOffset
      else newSelectionStart
    let finalSelectionStart :=
      min newSelectionStart (newLineOffs.getD newStartLine 0 + (newLines.getD newStartLine []).length)
    let finalSelectionEnd :=
      min newSelectionEnd (newLineOffs.getD newEndLine 0 + (newLines.getD newEndLine []).length)
    ⟨joinLines newLines, finalSelectionStart, finalSelectionEnd⟩

/-- Shallow embedding of the scroll computation at the end of the deferred
callback (source lines 179–207): decides the new `scrollTop` from the
current scroll geometry, the new line count and the remapped start line.
`scrollHeight` plays the role of the content height and `clientHeight` the
viewport height. -/
def computeScrollTop (direction : Direction)
    (currentScrollTop scrollHeight clientHeight : ℚ)
    (numLines newStartLine : Nat) : ℚ :=
  let maxScroll := scrollHeight - clientHeight
  let lineHeight := scrollHeight / (numLines : ℚ)
  let targetLinePosition := lineHeight * (newStartLine : ℚ)
  let buffer := lineHeight * 2
  if direction = Direction.up ∧ targetLinePosition - buffer < currentScrollTop then
    max 0 (targetLinePosition - buffer)
  else
    if direction = Direction.down ∧
        targetLinePosition + lineHeight + buffer > currentScrollTop + clientHeight then
      min maxScroll (targetLinePosition - clientHeight + lineHeight + buffer)
    else
      currentScrollTop

/-! ### Proof-side descriptions of the engine's list surgery

`lineStart lines i` is the absolute offset of line `i`'s first character
(the value stored at index `i` of the source's `lineOffsets` table);
`movedUp`/`movedDown`/`copiedAt` describe the line list produced by the
four operations in explicit `take`/`drop` form. -/

/-- Absolute offset of the first character of line `i`. -/
def lineStart : List Buffer → Nat → Nat
  | _, 0 => 0
  | [], _ + 1 => 0
  | l :: ls, i + 1 => l.length + 1 + lineStart ls i

/-- The lines of a decomposed buffer contain no newline character. -/
def NlFree (lines : List Buffer) : Prop :=
  ∀ l ∈ lines, '\n' ∉ l

instance (lines : List Buffer) : Decidable (NlFree lines) := by
  unfold NlFree; infer_instance

/-- The inclusive slice of lines `s‥e`. -/
def lineSlice (lines : List Buffer) (s e : Nat) : List Buffer :=
  (lines.drop s).take (e - s + 1)

/-- Line list after moving the block `s‥e` up by one line. -/
def movedUp (lines : List Buffer) (s e : Nat) : List Buffer :=
  lines.take (s - 1) ++ lineSlice lines s e ++ [lines.getD (s - 1) []] ++ lines.drop (e + 1)

/-- Line list after moving the block `s‥e` down by one line. -/
def movedDown (lines : List Buffer) (s e : Nat) : List Buffer :=
  lines.take s ++ [lines.getD (e + 1) []] ++ lineSlice lines s e ++ lines.drop (e + 2)

/-- Line list after inserting a copy of the block `s‥e` at position `p`. -/
def copiedAt (lines : List Buffer) (s e p : Nat) : List Buffer :=
  lines.take p ++ lineSlice lines s e ++ lines.drop p

theorem lineStart_zero (ls : List Buffer) : lineStart ls 0 = 0 := by
  cases ls <;> rfl

theorem lineStart_nil (i : Nat) : lineStart [] i = 0 := by
  cases i <;> rfl

theorem lineStart_cons_succ (l : Buffer) (ls : List Buffer) (i : Nat) :
    lineStart (l :: ls) (i + 1) = l.length + 1 + lineStart ls i := rfl

theorem joinLines_singleton (l : Buffer) : joinLines [l] = l := by
  simp [joinLines, List.intercalate]

theorem joinLines_cons (l : Buffer) (ls : List Buffer) (h : ls ≠ []) :
    joinLines (l :: ls) = l ++ '\n' :: joinLines ls := by
  cases ls with
  | nil => exact absurd rfl h
  | cons b bs => simp [joinLines, List.intercalate, List.intersperse_cons_cons]

theorem lineOffsetsFrom_getD (ls : List Buffer) (a i : Nat) (h : i < ls.length) :
    (lineOffsetsFrom a ls).getD i 0 = a + lineStart ls i := by
  induction ls generalizing a i with
  | nil => simp at h
  | cons l ls ih =>
    cases i with
    | zero => simp [lineOffsetsFrom, lineStart_zero]
    | succ i =>
      have h' : i < ls.length := by simpa using h
      simp only [lineOffsetsFrom, List.getD_cons_succ, ih _ _ h', lineStart_cons_succ]
      omega

theorem lineOffsets_getD (ls : List Buffer) (i : Nat) (h : i < ls.length) :
    (lineOffsets ls).getD i 0 = lineStart ls i := by
  simpa using lineOffsetsFrom_getD ls 0 i h

theorem lineStart_succ (ls : List Buffer) (i : Nat) (h : i < ls.length) :
    lineStart ls (i + 1) = lineStart ls i + (ls.getD i []).length + 1 := by
  induction ls generalizing i with
  | nil => simp at h
  | cons l ls ih =>
    cases i with
    | zero => simp [lineStart_cons_succ, lineStart_zero]
    | succ i =>
      have h' : i < ls.length := by simpa using h
      simp only [lineStart_cons_succ, List.getD_cons_succ, ih _ h']
      omega

theorem lineStart_le_succ (ls : List Buffer) (i : Nat) :
    lineStart ls i ≤ lineStart ls (i + 1) := by
  induction ls generalizing i with
  | nil => simp [lineStart_nil]
  | cons l ls ih =>
    cases i with
    | zero => simp [lineStart_zero]
    | succ i => simp only [lineStart_cons_succ]; exact Nat.add_le_add_left (ih i) _

theorem lineStart_mono (ls : List Buffer) {i j : Nat} (h : i ≤ j) :
    lineStart ls i ≤ lineStart ls j := by
  induction j with
  | zero =>
    have : i = 0 := by omega
    subst this; exact le_refl _
  | succ j ih =>
    rcases Nat.lt_or_ge i (j + 1) with h' | h'
    · exact le_trans (ih (by omega)) (lineStart_le_succ ls j)
    · have : i = j + 1 := by omega
      subst this; exact le_refl _

theorem nlFree_getD {ls : List Buffer} (h : NlFree ls) (i : Nat) :
    '\n' ∉ ls.getD i [] := by
  rcases Nat.lt_or_ge i ls.length with h' | h'
  · rw [List.getD_eq_getElem ls [] h']
    exact h _ (List.getElem_mem h')
  · rw [List.getD_eq_default ls [] h']
    simp

theorem splitLines_joinLines {lines : List Buffer} (h : NlFree lines) (hne : lines ≠ []) :
    splitLines (joinLines lines) = lines :=
  List.splitOn_intercalate lines '\n' h hne

theorem joinLines_splitLines (value : Buffer) : joinLines (splitLines value) = value :=
  List.intercalate_splitOn value '\n'

theorem splitLines_ne_nil (value : Buffer) : splitLines value ≠ [] := by
  simpa [splitLines, List.splitOn] using List.splitOnP_ne_nil (· == '\n') value

theorem joinLines_take (lines : List Buffer) (i c : Nat) (hi : i < lines.length)
    (hc : c ≤ (lines.getD i []).length) :
    (joinLines lines).take (lineStart lines i + c)
      = joinLines (lines.take i ++ [(lines.getD i []).take c]) := by
  induction lines generalizing i with
  | nil => simp at hi
  | cons l ls ih =>
    cases i with
    | zero =>
      simp only [lineStart_zero, Nat.zero_add, List.take_zero, List.nil_append,
        List.getD_cons_zero] at hc ⊢
      cases ls with
      | nil => simp [joinLines_singleton]
      | cons b bs =>
        rw [joinLines_cons l (b :: bs) (by simp), joinLines_singleton,
          List.take_append_eq_append_take, Nat.sub_eq_zero_of_le hc]
        simp
    | succ i =>
      have hi' : i < ls.length := by simpa using hi
      have hls : ls ≠ [] := by
        intro hnil; rw [hnil] at hi'; simp at hi'
      have hc' : c ≤ (ls.getD i []).length := by simpa using hc
      rw [joinLines_cons l ls hls, lineStart_cons_succ]
      have harith : l.length + 1 + lineStart ls i + c = l.length + (1 + (lineStart ls i + c)) := by
        omega
      rw [harith, List.take_append_eq_append_take,
        List.take_of_length_le (by omega), Nat.add_sub_cancel_left,
        Nat.add_comm 1 (lineStart ls i + c), List.take_succ_cons,
        ih i hi' hc', List.take_succ_cons, List.getD_cons_succ, List.cons_append,
        joinLines_cons l _ (by simp)]

theorem lineNumberOf_joinLines (lines : List Buffer) (hnl : NlFree lines) (i c : Nat)
    (hi : i < lines.length) (hc : c ≤ (lines.getD i []).length) :
    lineNumberOf (joinLines lines) (lineStart lines i + c) = i := by
  unfold lineNumberOf
  rw [joinLines_take lines i c hi hc]
  have hnl' : NlFree (lines.take i ++ [(lines.getD i []).take c]) := by
    intro l hl
    rcases List.mem_append.mp hl with hl | hl
    · exact hnl l (List.take_subset i lines hl)
    · rw [List.mem_singleton.mp hl]
      intro hmem
      exact nlFree_getD hnl i (List.take_subset c _ hmem)
  have := splitLines_joinLines hnl' (by simp)
  rw [show ((joinLines (lines.take i ++ [(lines.getD i []).take c])).splitOn '\n')
      = splitLines (joinLines (lines.take i ++ [(lines.getD i []).take c])) from rfl, this]
  simp [List.length_take, Nat.min_eq_left (Nat.le_of_lt hi)]

theorem getD_append_offset (A B : List Buffer) (i : Nat) :
    (A ++ B).getD (A.length + i) [] = B.getD i [] := by
  rw [List.getD_append_right A B [] (A.length + i) (Nat.le_add_right _ _),
    Nat.add_sub_cancel_left]

theorem lineSlice_length (lines : List Buffer) (s e : Nat) (hse : s ≤ e)
    (he : e < lines.length) : (lineSlice lines s e).length = e - s + 1 := by
  simp only [lineSlice, List.length_take, List.length_drop]
  omega

theorem lineSlice_getD (lines : List Buffer) (s e i : Nat) (hi : i < e - s + 1)
    (h : s + i < lines.length) : (lineSlice lines s e).getD i [] = lines.getD (s + i) [] := by
  have hlen : i < (lineSlice lines s e).length := by
    simp only [lineSlice, List.length_take, List.length_drop]
    omega
  have hd : i < (lines.drop s).length := by
    simp only [List.length_drop]; omega
  rw [List.getD_eq_getElem _ [] hlen, List.getD_eq_getElem _ [] h]
  simp only [lineSlice]
  rw [List.getElem_take, List.getElem_drop]

theorem lineSlice_self (lines : List Buffer) (s : Nat) (hs : s < lines.length) :
    lineSlice lines s s = [lines.getD s []] := by
  simp only [lineSlice, Nat.sub_self]
  rw [List.take_one_drop_eq_of_lt_length hs, List.getD_eq_getElem lines [] hs,
    List.get_eq_getElem]

theorem decomp_up (lines : List Buffer) (s e : Nat) (hs1 : 1 ≤ s) (hse : s ≤ e)
    (he : e < lines.length) :
    lines = lines.take (s - 1) ++ [lines.getD (s - 1) []] ++ lineSlice lines s e
      ++ lines.drop (e + 1) := by
  have h1 : s - 1 < lines.length := by omega
  conv_lhs => rw [← List.take_append_drop (s - 1) lines]
  rw [List.drop_eq_getElem_cons h1, List.getD_eq_getElem lines [] h1]
  have h2 : s - 1 + 1 = s := by omega
  rw [h2]
  have h3 : lines.drop s = lineSlice lines s e ++ lines.drop (e + 1) := by
    conv_lhs => rw [← List.take_append_drop (e - s + 1) (lines.drop s)]
    rw [List.drop_drop, show s + (e - s + 1) = e + 1 from by omega]
    rfl
  rw [h3]
  simp only [List.append_assoc, List.singleton_append, List.cons_append, List.nil_append]

theorem decomp_down (lines : List Buffer) (s e : Nat) (hse : s ≤ e)
    (he : e + 1 < lines.length) :
    lines = lines.take s ++ lineSlice lines s e ++ [lines.getD (e + 1) []]
      ++ lines.drop (e + 2) := by
  conv_lhs => rw [← List.take_append_drop s lines]
  have h3 : lines.drop s = lineSlice lines s e ++ lines.drop (e + 1) := by
    conv_lhs => rw [← List.take_append_drop (e - s + 1) (lines.drop s)]
    rw [List.drop_drop, show s + (e - s + 1) = e + 1 from by omega]
    rfl
  rw [h3, List.drop_eq_getElem_cons he, List.getD_eq_getElem lines [] he]
  simp only [List.append_assoc, List.singleton_append, List.cons_append, List.nil_append]

theorem movedUp_length (lines : List Buffer) (s e : Nat) (hs1 : 1 ≤ s) (hse : s ≤ e)
    (he : e < lines.length) : (movedUp lines s e).length = lines.length := by
  simp only [movedUp, lineSlice, List.length_append, List.length_take, List.length_drop,
    List.length_singleton]
  omega

theorem movedDown_length (lines : List Buffer) (s e : Nat) (hse : s ≤ e)
    (he : e + 1 < lines.length) : (movedDown lines s e).length = lines.length := by
  simp only [movedDown, lineSlice, List.length_append, List.length_take, List.length_drop,
    List.length_singleton]
  omega

theorem copiedAt_length (lines : List Buffer) (s e p : Nat) (hse : s ≤ e)
    (he : e < lines.length) (hp : p ≤ lines.length) :
    (copiedAt lines s e p).length = lines.length + (e - s + 1) := by
  simp only [copiedAt, lineSlice, List.length_append, List.length_take, List.length_drop]
  omega

theorem movedUp_getD_start (lines : List Buffer) (s e : Nat) (hs1 : 1 ≤ s) (hse : s ≤ e)
    (he : e < lines.length) : (movedUp lines s e).getD (s - 1) [] = lines.getD s [] := by
  have ha : (lines.take (s - 1)).length = s - 1 := by
    simp only [List.length_take]; omega
  have hb : (lineSlice lines s e).length = e - s + 1 := lineSlice_length lines s e hse he
  have h1 : s - 1 < ((lines.take (s - 1) ++ lineSlice lines s e)
      ++ [lines.getD (s - 1) []]).length := by
    simp only [List.length_append, ha, hb, List.length_singleton]; omega
  have h2 : s - 1 < (lines.take (s - 1) ++ lineSlice lines s e).length := by
    simp only [List.length_append, ha, hb]; omega
  rw [movedUp, List.getD_append _ _ [] _ h1, List.getD_append _ _ [] _ h2,
    List.getD_append_right _ _ [] _ (le_of_eq ha), ha,
    show s - 1 - (s - 1) = 0 from by omega,
    lineSlice_getD lines s e 0 (by omega) (by omega), Nat.add_zero]

theorem movedUp_getD_end (lines : List Buffer) (s e : Nat) (hs1 : 1 ≤ s) (hse : s ≤ e)
    (he : e < lines.length) : (movedUp lines s e).getD (e - 1) [] = lines.getD e [] := by
  have ha : (lines.take (s - 1)).length = s - 1 := by
    simp only [List.length_take]; omega
  have hb : (lineSlice lines s e).length = e - s + 1 := lineSlice_length lines s e hse he
  have h1 : e - 1 < ((lines.take (s - 1) ++ lineSlice lines s e)
      ++ [lines.getD (s - 1) []]).length := by
    simp only [List.length_append, ha, hb, List.length_singleton]; omega
  have h2 : e - 1 < (lines.take (s - 1) ++ lineSlice lines s e).length := by
    simp only [List.length_append, ha, hb]; omega
  have h3 : (lines.take (s - 1)).length ≤ e - 1 := by
    rw [ha]; omega
  rw [movedUp, List.getD_append _ _ [] _ h1, List.getD_append _ _ [] _ h2,
    List.getD_append_right _ _ [] _ h3, ha,
    show e - 1 - (s - 1) = e - s from by omega,
    lineSlice_getD lines s e (e - s) (by omega) (by omega),
    show s + (e - s) = e from by omega]

theorem movedDown_getD_start (lines : List Buffer) (s e : Nat) (hse : s ≤ e)
    (he : e + 1 < lines.length) : (movedDown lines s e).getD (s + 1) [] = lines.getD s [] := by
  have ha : (lines.take s).length = s := by
    simp only [List.length_take]; omega
  have hb : (lineSlice lines s e).length = e - s + 1 := lineSlice_length lines s e hse (by omega)
  have hx : (lines.take s ++ [lines.getD (e + 1) []]).length = s + 1 := by
    simp only [List.length_append, ha, List.length_singleton]
  have h1 : s + 1 < ((lines.take s ++ [lines.getD (e + 1) []]) ++ lineSlice lines s e).length := by
    simp only [List.length_append, ha, hb, List.length_singleton]; omega
  rw [movedDown, List.getD_append _ _ [] _ h1,
    List.getD_append_right _ _ [] _ (le_of_eq hx), hx,
    show s + 1 - (s + 1) = 0 from by omega,
    lineSlice_getD lines s e 0 (by omega) (by omega), Nat.add_zero]

theorem movedDown_getD_end (lines : List Buffer) (s e : Nat) (hse : s ≤ e)
    (he : e + 1 < lines.length) : (movedDown lines s e).getD (e + 1) [] = lines.getD e [] := by
  have ha : (lines.take s).length = s := by
    simp only [List.length_take]; omega
  have hb : (lineSlice lines s e).length = e - s + 1 := lineSlice_length lines s e hse (by omega)
  have hx : (lines.take s ++ [lines.getD (e + 1) []]).length = s + 1 := by
    simp only [List.length_append, ha, List.length_singleton]
  have h1 : e + 1 < ((lines.take s ++ [lines.getD (e + 1) []]) ++ lineSlice lines s e).length := by
    simp only [List.length_append, ha, hb, List.length_singleton]; omega
  have h3 : (lines.take s ++ [lines.getD (e + 1) []]).length ≤ e + 1 := by
    rw [hx]; omega
  rw [movedDown, List.getD_append _ _ [] _ h1,
    List.getD_append_right _ _ [] _ h3, hx,
    show e + 1 - (s + 1) = e - s from by omega,
    lineSlice_getD lines s e (e - s) (by omega) (by omega),
    show s + (e - s) = e from by omega]

theorem copiedAt_getD (lines : List Buffer) (s e p i : Nat) (hp : p ≤ lines.length)
    (hse : s ≤ e) (hel : e < lines.length)
    (hi : i < e - s + 1) (hsi : s + i < lines.length) :
    (copiedAt lines s e p).getD (p + i) [] = lines.getD (s + i) [] := by
  have ha : (lines.take p).length = p := by
    simp only [List.length_take]; omega
  have hb : (lineSlice lines s e).length = e - s + 1 := lineSlice_length lines s e hse hel
  have h1 : p + i < (lines.take p ++ lineSlice lines s e).length := by
    simp only [List.length_append, ha, hb]; omega
  have h3 : (lines.take p).length ≤ p + i := by
    rw [ha]; omega
  rw [copiedAt, List.getD_append _ _ [] _ h1,
    List.getD_append_right _ _ [] _ h3, ha,
    show p + i - p = i from by omega,
    lineSlice_getD lines s e i hi hsi]

theorem swap_eq_movedUp (lines : List Buffer) (s : Nat) (hs1 : 1 ≤ s) (hs : s < lines.length) :
    (lines.set s (lines.getD (s - 1) [])).set (s - 1) (lines.getD s [])
      = movedUp lines s s := by
  have hs1' : s - 1 < lines.length := by omega
  rw [movedUp, lineSlice_self lines s hs]
  have hinner : lines.set s (lines.getD (s - 1) [])
      = lines.take s ++ lines.getD (s - 1) [] :: lines.drop (s + 1) := by
    rw [List.set_eq_take_append_cons_drop, if_pos hs]
  rw [hinner, List.set_eq_take_append_cons_drop,
    if_pos (by
      simp only [List.length_append, List.length_take, List.length_cons, List.length_drop]
      omega)]
  have htk : (lines.take s ++ lines.getD (s - 1) [] :: lines.drop (s + 1)).take (s - 1)
      = lines.take (s - 1) := by
    rw [List.take_append_eq_append_take, List.take_take,
      show min (s - 1) s = s - 1 from by omega,
      show s - 1 - (lines.take s).length = 0 from by
        simp only [List.length_take]; omega,
      List.take_zero, List.append_nil]
  have hdr : (lines.take s ++ lines.getD (s - 1) [] :: lines.drop (s + 1)).drop (s - 1 + 1)
      = lines.getD (s - 1) [] :: lines.drop (s + 1) := by
    rw [show s - 1 + 1 = s from by omega, List.drop_append_eq_append_drop,
      List.drop_eq_nil_of_le (by simp only [List.length_take]; omega),
      show s - (lines.take s).length = 0 from by
        simp only [List.length_take]; omega,
      List.drop_zero, List.nil_append]
  rw [htk, hdr]
  simp only [List.append_assoc, List.singleton_append, List.cons_append, List.nil_append]

theorem swap_eq_movedDown (lines : List Buffer) (s : Nat) (hs : s + 1 < lines.length) :
    (lines.set s (lines.getD (s + 1) [])).set (s + 1) (lines.getD s [])
      = movedDown lines s s := by
  rw [movedDown, lineSlice_self lines s (by omega)]
  have hinner : lines.set s (lines.getD (s + 1) [])
      = lines.take s ++ lines.getD (s + 1) [] :: lines.drop (s + 1) := by
    rw [List.set_eq_take_append_cons_drop, if_pos (by omega)]
  rw [hinner, List.set_eq_take_append_cons_drop,
    if_pos (by
      simp only [List.length_append, List.length_take, List.length_cons, List.length_drop]
      omega)]
  have htk : (lines.take s ++ lines.getD (s + 1) [] :: lines.drop (s + 1)).take (s + 1)
      = lines.take s ++ [lines.getD (s + 1) []] := by
    rw [List.take_append_eq_append_take,
      List.take_of_length_le (by simp only [List.length_take]; omega),
      show s + 1 - (lines.take s).length = 1 from by
        simp only [List.length_take]; omega]
    rfl
  have hdr : (lines.take s ++ lines.getD (s + 1) [] :: lines.drop (s + 1)).drop (s + 1 + 1)
      = lines.drop (s + 2) := by
    rw [List.drop_append_eq_append_drop,
      List.drop_eq_nil_of_le (by simp only [List.length_take]; omega),
      show s + 1 + 1 - (lines.take s).length = 2 from by
        simp only [List.length_take]; omega,
      List.nil_append, show (2 : Nat) = 1 + 1 from rfl,
      List.drop_succ_cons, List.drop_drop]
  rw [htk, hdr]
  simp only [List.append_assoc, List.singleton_append, List.cons_append, List.nil_append]

theorem movedDown_movedUp (lines : List Buffer) (s e : Nat) (hs1 : 1 ≤ s) (hse : s ≤ e)
    (he : e < lines.length) : movedDown (movedUp lines s e) (s - 1) (e - 1) = lines := by
  have ha : (lines.take (s - 1)).length = s - 1 := by
    simp only [List.length_take]; omega
  have hb : (lineSlice lines s e).length = e - s + 1 := lineSlice_length lines s e hse he
  have hab : (lines.take (s - 1) ++ lineSlice lines s e).length = e := by
    simp only [List.length_append, ha, hb]; omega
  have habx : ((lines.take (s - 1) ++ lineSlice lines s e)
      ++ [lines.getD (s - 1) []]).length = e + 1 := by
    simp only [List.length_append, ha, hb, List.length_singleton]; omega
  have h1 : (movedUp lines s e).take (s - 1) = lines.take (s - 1) := by
    rw [movedUp]
    simp only [List.append_assoc]
    exact List.take_left' ha
  have h2 : (movedUp lines s e).getD (e - 1 + 1) [] = lines.getD (s - 1) [] := by
    rw [show e - 1 + 1 = e from by omega, movedUp,
      List.getD_append _ _ [] _ (by rw [habx]; omega),
      List.getD_append_right _ _ [] _ (le_of_eq hab), hab, Nat.sub_self]
    rfl
  have h3 : lineSlice (movedUp lines s e) (s - 1) (e - 1) = lineSlice lines s e := by
    rw [lineSlice, movedUp]
    simp only [List.append_assoc]
    rw [List.drop_left' ha, show e - 1 - (s - 1) + 1 = e - s + 1 from by omega,
      List.take_append_eq_append_take, List.take_of_length_le (le_of_eq hb),
      hb, Nat.sub_self, List.take_zero, List.append_nil]
  have h4 : (movedUp lines s e).drop (e - 1 + 2) = lines.drop (e + 1) := by
    rw [show e - 1 + 2 = e + 1 from by omega, movedUp, List.drop_left' habx]
  rw [movedDown, h1, h2, h3, h4]
  conv_rhs => rw [decomp_up lines s e hs1 hse he]

theorem movedUp_movedDown (lines : List Buffer) (s e : Nat) (hse : s ≤ e)
    (he : e + 1 < lines.length) : movedUp (movedDown lines s e) (s + 1) (e + 1) = lines := by
  have ha : (lines.take s).length = s := by
    simp only [List.length_take]; omega
  have hb : (lineSlice lines s e).length = e - s + 1 := lineSlice_length lines s e hse (by omega)
  have hay : (lines.take s ++ [lines.getD (e + 1) []]).length = s + 1 := by
    simp only [List.length_append, ha, List.length_singleton]
  have hayb : ((lines.take s ++ [lines.getD (e + 1) []]) ++ lineSlice lines s e).length
      = e + 2 := by
    simp only [List.length_append, ha, hb, List.length_singleton]; omega
  have h1 : (movedDown lines s e).take (s + 1 - 1) = lines.take s := by
    rw [show s + 1 - 1 = s from by omega, movedDown]
    simp only [List.append_assoc]
    exact List.take_left' ha
  have h2 : (movedDown lines s e).getD (s + 1 - 1) [] = lines.getD (e + 1) [] := by
    rw [show s + 1 - 1 = s from by omega, movedDown,
      List.getD_append _ _ [] _ (by rw [hayb]; omega),
      List.getD_append _ _ [] _ (by rw [hay]; omega),
      List.getD_append_right _ _ [] _ (le_of_eq ha), ha, Nat.sub_self]
    rfl
  have h3 : lineSlice (movedDown lines s e) (s + 1) (e + 1) = lineSlice lines s e := by
    rw [lineSlice, movedDown]
    simp only [List.append_assoc]
    rw [show lines.take s ++ ([lines.getD (e + 1) []]
        ++ (lineSlice lines s e ++ lines.drop (e + 2)))
      = (lines.take s ++ [lines.getD (e + 1) []])
        ++ (lineSlice lines s e ++ lines.drop (e + 2)) from by
        simp only [List.append_assoc],
      List.drop_left' hay, show e + 1 - (s + 1) + 1 = e - s + 1 from by omega,
      List.take_append_eq_append_take, List.take_of_length_le (le_of_eq hb),
      hb, Nat.sub_self, List.take_zero, List.append_nil]
  have h4 : (movedDown lines s e).drop (e + 1 + 1) = lines.drop (e + 2) := by
    rw [show e + 1 + 1 = e + 2 from by omega, movedDown, List.drop_left' hayb]
  rw [movedUp, h1, h2, h3, h4]
  conv_rhs => rw [decomp_down lines s e hse he]

theorem movedUp_perm (lines : List Buffer) (s e : Nat) (hs1 : 1 ≤ s) (hse : s ≤ e)
    (he : e < lines.length) : (movedUp lines s e).Perm lines := by
  conv_rhs => rw [decomp_up lines s e hs1 hse he]
  rw [movedUp]
  simp only [List.append_assoc]
  refine List.Perm.append_left _ ?_
  rw [← List.append_assoc, ← List.append_assoc]
  exact List.Perm.append_right _ List.perm_append_comm

theorem movedDown_perm (lines : List Buffer) (s e : Nat) (hse : s ≤ e)
    (he : e + 1 < lines.length) : (movedDown lines s e).Perm lines := by
  conv_rhs => rw [decomp_down lines s e hse he]
  rw [movedDown]
  simp only [List.append_assoc]
  refine List.Perm.append_left _ ?_
  rw [← List.append_assoc, ← List.append_assoc]
  exact List.Perm.append_right _ List.perm_append_comm

theorem spliceMoveUp (lines : List Buffer) (s e : Nat) (hs1 : 1 ≤ s) (hse : s ≤ e)
    (he : e < lines.length) :
    jsSpliceInsert (lines.take s ++ lines.drop (e + 1)) (s - 1) (lineSlice lines s e)
      = movedUp lines s e := by
  have hts : (lines.take s).length = s := by
    simp only [List.length_take]; omega
  have h1 : (lines.take s ++ lines.drop (e + 1)).take (s - 1) = lines.take (s - 1) := by
    rw [List.take_append_eq_append_take, List.take_take,
      show min (s - 1) s = s - 1 from by omega, hts,
      show s - 1 - s = 0 from by omega, List.take_zero, List.append_nil]
  have h2 : (lines.take s ++ lines.drop (e + 1)).drop (s - 1)
      = [lines.getD (s - 1) []] ++ lines.drop (e + 1) := by
    rw [List.drop_append_eq_append_drop, hts, show s - 1 - s = 0 from by omega,
      List.drop_zero, List.drop_take, show s - (s - 1) = 1 from by omega,
      List.take_one_drop_eq_of_lt_length (show s - 1 < lines.length from by omega),
      List.getD_eq_getElem lines [] (show s - 1 < lines.length from by omega),
      List.get_eq_getElem]
  rw [jsSpliceInsert, h1, h2, movedUp]
  simp only [List.append_assoc]

set_option maxHeartbeats 1000000 in
set_option maxHeartbeats 1000000 in
theorem moveUp_eq (lines : List Buffer) (hnl : NlFree lines)
    (s e cs ce : Nat) (hs1 : 1 ≤ s) (hse : s ≤ e) (he : e < lines.length)
    (hcs : cs ≤ (lines.getD s []).length) (hce : ce ≤ (lines.getD e []).length) :
    moveSelectedLine (joinLines lines) (lineStart lines s + cs) (lineStart lines e + ce)
        Direction.up false
      = ⟨joinLines (movedUp lines s e),
          lineStart (movedUp lines s e) (s - 1) + cs,
          lineStart (movedUp lines s e) (e - 1) + (if s = e then cs else ce)⟩ := by
  have hne : lines ≠ [] := by intro h; rw [h] at he; simp at he
  have hs : s < lines.length := lt_of_le_of_lt hse he
  have hS : lineNumberOf (joinLines lines) (lineStart lines s + cs) = s :=
    lineNumberOf_joinLines lines hnl s cs hs hcs
  have hE : lineNumberOf (joinLines lines) (lineStart lines e + ce) = e :=
    lineNumberOf_joinLines lines hnl e ce he hce
  have hsplit : splitLines (joinLines lines) = lines := splitLines_joinLines hnl hne
  simp only [moveSelectedLine, hS, hE, hsplit]
  rw [if_neg (by
    rintro ⟨-, h | h⟩
    · exact absurd h.2 (by omega)
    · exact Direction.noConfusion h.1)]
  have htoNat : ((e : Int) - (s : Int) + 1).toNat = e - s + 1 := by omega
  rcases Nat.lt_or_eq_of_le hse with hlt | heq
  · have hd : (decide (s ≠ e) = true) = True := by
      simp [Nat.ne_of_lt hlt]
    simp only [Bool.false_eq_true, if_false, if_true, hd, htoNat]
    rw [show s + (e - s + 1) = e + 1 from by omega,
      show List.take (e - s + 1) (List.drop s lines) = lineSlice lines s e from rfl,
      spliceMoveUp lines s e hs1 hse he]
    rw [lineOffsets_getD lines s hs, lineOffsets_getD lines e he,
      lineOffsets_getD (movedUp lines s e) (s - 1) (by
        rw [movedUp_length lines s e hs1 hse he]; omega),
      lineOffsets_getD (movedUp lines s e) (e - 1) (by
        rw [movedUp_length lines s e hs1 hse he]; omega),
      movedUp_getD_start lines s e hs1 hse he, movedUp_getD_end lines s e hs1 hse he,
      if_neg (Nat.ne_of_lt hlt)]
    simp only [MoveResult.mk.injEq]
    refine ⟨trivial, by omega, by omega⟩
  · subst heq
    have hd : (decide (s ≠ s) = true) = False := by simp
    simp only [Bool.false_eq_true, if_false, if_true, hd]
    rw [swap_eq_movedUp lines s hs1 hs]
    rw [lineOffsets_getD lines s hs,
      lineOffsets_getD (movedUp lines s s) (s - 1) (by
        rw [movedUp_length lines s s hs1 (le_refl s) he]; omega),
      movedUp_getD_start lines s s hs1 (le_refl s) he]
    simp only [MoveResult.mk.injEq]
    refine ⟨trivial, by omega, by omega⟩

theorem spliceMoveDown (lines : List Buffer) (s e : Nat) (hse : s ≤ e)
    (he : e + 1 < lines.length) :
    jsSpliceInsert (lines.take s ++ lines.drop (e + 1)) (s + 1) (lineSlice lines s e)
      = movedDown lines s e := by
  have hts : (lines.take s).length = s := by
    simp only [List.length_take]; omega
  have h1 : (lines.take s ++ lines.drop (e + 1)).take (s + 1)
      = lines.take s ++ [lines.getD (e + 1) []] := by
    rw [List.take_append_eq_append_take, List.take_of_length_le (by rw [hts]; omega), hts,
      show s + 1 - s = 1 from by omega,
      List.take_one_drop_eq_of_lt_length he,
      List.getD_eq_getElem lines [] he, List.get_eq_getElem]
  have h2 : (lines.take s ++ lines.drop (e + 1)).drop (s + 1) = lines.drop (e + 2) := by
    rw [List.drop_append_eq_append_drop,
      List.drop_eq_nil_of_le (by rw [hts]; omega), hts,
      show s + 1 - s = 1 from by omega, List.nil_append, List.drop_drop]
  rw [jsSpliceInsert, h1, h2, movedDown]

set_option maxHeartbeats 1000000 in
theorem moveDown_eq (lines : List Buffer) (hnl : NlFree lines)
    (s e cs ce : Nat) (hse : s ≤ e) (he : e + 1 < lines.length)
    (hcs : cs ≤ (lines.getD s []).length) (hce : ce ≤ (lines.getD e []).length) :
    moveSelectedLine (joinLines lines) (lineStart lines s + cs) (lineStart lines e + ce)
        Direction.down false
      = ⟨joinLines (movedDown lines s e),
          lineStart (movedDown lines s e) (s + 1) + cs,
          lineStart (movedDown lines s e) (e + 1) + (if s = e then cs else ce)⟩ := by
  have hne : lines ≠ [] := by intro h; rw [h] at he; simp at he
  have he' : e < lines.length := by omega
  have hs : s < lines.length := by omega
  have hS : lineNumberOf (joinLines lines) (lineStart lines s + cs) = s :=
    lineNumberOf_joinLines lines hnl s cs hs hcs
  have hE : lineNumberOf (joinLines lines) (lineStart lines e + ce) = e :=
    lineNumberOf_joinLines lines hnl e ce he' hce
  have hsplit : splitLines (joinLines lines) = lines := splitLines_joinLines hnl hne
  simp only [moveSelectedLine, hS, hE, hsplit]
  rw [if_neg (by
    rintro ⟨-, h | h⟩
    · exact Direction.noConfusion h.1
    · exact absurd h.2 (by omega))]
  have htoNat : ((e : Int) - (s : Int) + 1).toNat = e - s + 1 := by omega
  have hdu : (Direction.down = Direction.up) = False := by simp
  rcases Nat.lt_or_eq_of_le hse with hlt | heq
  · have hd : (decide (s ≠ e) = true) = True := by
      simp [Nat.ne_of_lt hlt]
    simp only [Bool.false_eq_true, if_false, if_true, hd, htoNat, hdu]
    rw [show s + (e - s + 1) = e + 1 from by omega,
      show List.take (e - s + 1) (List.drop s lines) = lineSlice lines s e from rfl,
      lineSlice_length lines s e hse he',
      show ((((e + 1 : Nat)) : Int) - ((e - s + 1 : Nat) : Int) + 1).toNat = s + 1 from by omega,
      spliceMoveDown lines s e hse he]
    rw [lineOffsets_getD lines s hs, lineOffsets_getD lines e he',
      lineOffsets_getD (movedDown lines s e) (s + 1) (by
        rw [movedDown_length lines s e hse he]; omega),
      lineOffsets_getD (movedDown lines s e) (e + 1) (by
        rw [movedDown_length lines s e hse he]; omega),
      movedDown_getD_start lines s e hse he, movedDown_getD_end lines s e hse he,
      if_neg (Nat.ne_of_lt hlt)]
    simp only [MoveResult.mk.injEq]
    refine ⟨trivial, by omega, by omega⟩
  · subst heq
    have hd : (decide (s ≠ s) = true) = False := by simp
    simp only [Bool.false_eq_true, if_false, if_true, hd, hdu]
    rw [swap_eq_movedDown lines s he]
    rw [lineOffsets_getD lines s hs,
      lineOffsets_getD (movedDown lines s s) (s + 1) (by
        rw [movedDown_length lines s s (le_refl s) he]; omega),
      movedDown_getD_start lines s s (le_refl s) he]
    simp only [MoveResult.mk.injEq]
    refine ⟨trivial, by omega, by omega⟩

theorem copiedUp_getD_start (lines : List Buffer) (s e : Nat) (hse : s ≤ e)
    (he : e < lines.length) : (copiedAt lines s e s).getD s [] = lines.getD s [] := by
  have h := copiedAt_getD lines s e s 0 (by omega) hse he (by omega) (by omega)
  exact h

theorem copiedUp_getD_end (lines : List Buffer) (s e : Nat) (hse : s ≤ e)
    (he : e < lines.length) : (copiedAt lines s e s).getD e [] = lines.getD e [] := by
  have h := copiedAt_getD lines s e s (e - s) (by omega) hse he (by omega) (by omega)
  rwa [show s + (e - s) = e from by omega] at h

theorem copiedDown_getD_end (lines : List Buffer) (s e : Nat) (hse : s ≤ e)
    (he : e < lines.length) : (copiedAt lines s e (e + 1)).getD (e + 1) [] = lines.getD s [] := by
  have h := copiedAt_getD lines s e (e + 1) 0 (by omega) hse he (by omega) (by omega)
  exact h

set_option maxHeartbeats 1000000 in
theorem copyUp_eq (lines : List Buffer) (hnl : NlFree lines)
    (s e cs ce : Nat) (hse : s ≤ e) (he : e < lines.length)
    (hcs : cs ≤ (lines.getD s []).length) (hce : ce ≤ (lines.getD e []).length) :
    moveSelectedLine (joinLines lines) (lineStart lines s + cs) (lineStart lines e + ce)
        Direction.up true
      = ⟨joinLines (copiedAt lines s e s),
          lineStart (copiedAt lines s e s) s + cs,
          lineStart (copiedAt lines s e s) e + (if s = e then cs else ce)⟩ := by
  have hne : lines ≠ [] := by intro h; rw [h] at he; simp at he
  have hs : s < lines.length := by omega
  have hS : lineNumberOf (joinLines lines) (lineStart lines s + cs) = s :=
    lineNumberOf_joinLines lines hnl s cs hs hcs
  have hE : lineNumberOf (joinLines lines) (lineStart lines e + ce) = e :=
    lineNumberOf_joinLines lines hnl e ce he hce
  have hsplit : splitLines (joinLines lines) = lines := splitLines_joinLines hnl hne
  have hk : 1 ≤ e - s + 1 := by omega
  simp only [moveSelectedLine, hS, hE, hsplit, Bool.not_true, Bool.false_eq_true, false_and,
    if_false]
  rcases Nat.lt_or_eq_of_le hse with hlt | heq
  · have hd : (decide (s ≠ e) = true) = True := by
      simp [Nat.ne_of_lt hlt]
    simp only [Bool.false_eq_true, if_false, if_true, hd]
    rw [show e + 1 - s = e - s + 1 from by omega,
      show List.take (e - s + 1) (List.drop s lines) = lineSlice lines s e from rfl,
      show jsSpliceInsert lines s (lineSlice lines s e) = copiedAt lines s e s from rfl]
    rw [lineOffsets_getD lines s hs, lineOffsets_getD lines e he,
      lineOffsets_getD (copiedAt lines s e s) s (by
        rw [copiedAt_length lines s e s hse he (by omega)]; omega),
      lineOffsets_getD (copiedAt lines s e s) e (by
        rw [copiedAt_length lines s e s hse he (by omega)]; omega),
      copiedUp_getD_start lines s e hse he, copiedUp_getD_end lines s e hse he,
      if_neg (Nat.ne_of_lt hlt)]
    simp only [MoveResult.mk.injEq]
    refine ⟨trivial, by omega, by omega⟩
  · subst heq
    have hd : (decide (s ≠ s) = true) = False := by simp
    simp only [Bool.false_eq_true, if_false, if_true, hd]
    rw [show [lines.getD s []] = lineSlice lines s s from (lineSlice_self lines s hs).symm,
      show jsSpliceInsert lines s (lineSlice lines s s) = copiedAt lines s s s from rfl]
    rw [lineOffsets_getD lines s hs,
      lineOffsets_getD (copiedAt lines s s s) s (by
        rw [copiedAt_length lines s s s (le_refl s) he (by omega)]; omega),
      copiedUp_getD_start lines s s (le_refl s) he]
    simp only [MoveResult.mk.injEq]
    refine ⟨trivial, by omega, by omega⟩

set_option maxHeartbeats 1000000 in
theorem copyDown_eq (lines : List Buffer) (hnl : NlFree lines)
    (s e cs ce : Nat) (hse : s ≤ e) (he : e < lines.length)
    (hcs : cs ≤ (lines.getD s []).length) (hce : ce ≤ (lines.getD e []).length) :
    moveSelectedLine (joinLines lines) (lineStart lines s + cs) (lineStart lines e + ce)
        Direction.down true
      = ⟨joinLines (copiedAt lines s e (e + 1)),
          lineStart (copiedAt lines s e (e + 1)) (s + 1)
            + min cs (((copiedAt lines s e (e + 1)).getD (s + 1) []).length),
          if s = e then
            lineStart (copiedAt lines s e (e + 1)) (s + 1)
              + min cs (((copiedAt lines s e (e + 1)).getD (s + 1) []).length)
          else lineStart (copiedAt lines s e (e + 1)) (e + 1)
            + min ce ((lines.getD s []).length)⟩ := by
  have hne : lines ≠ [] := by intro h; rw [h] at he; simp at he
  have hs : s < lines.length := by omega
  have hS : lineNumberOf (joinLines lines) (lineStart lines s + cs) = s :=
    lineNumberOf_joinLines lines hnl s cs hs hcs
  have hE : lineNumberOf (joinLines lines) (lineStart lines e + ce) = e :=
    lineNumberOf_joinLines lines hnl e ce he hce
  have hsplit : splitLines (joinLines lines) = lines := splitLines_joinLines hnl hne
  have hdu : (Direction.down = Direction.up) = False := by simp
  simp only [moveSelectedLine, hS, hE, hsplit, Bool.not_true, Bool.false_eq_true, false_and,
    if_false, hdu]
  rcases Nat.lt_or_eq_of_le hse with hlt | heq
  · have hd : (decide (s ≠ e) = true) = True := by
      simp [Nat.ne_of_lt hlt]
    simp only [Bool.false_eq_true, if_false, if_true, hd]
    rw [show e + 1 - s = e - s + 1 from by omega,
      show List.take (e - s + 1) (List.drop s lines) = lineSlice lines s e from rfl,
      show jsSpliceInsert lines (e + 1) (lineSlice lines s e) = copiedAt lines s e (e + 1)
        from rfl]
    rw [lineOffsets_getD lines s hs, lineOffsets_getD lines e he,
      lineOffsets_getD (copiedAt lines s e (e + 1)) (s + 1) (by
        rw [copiedAt_length lines s e (e + 1) hse he (by omega)]; omega),
      lineOffsets_getD (copiedAt lines s e (e + 1)) (e + 1) (by
        rw [copiedAt_length lines s e (e + 1) hse he (by omega)]; omega),
      copiedDown_getD_end lines s e hse he,
      if_neg (Nat.ne_of_lt hlt)]
    simp only [MoveResult.mk.injEq]
    refine ⟨trivial, by omega, by omega⟩
  · subst heq
    have hd : (decide (s ≠ s) = true) = False := by simp
    simp only [Bool.false_eq_true, if_false, if_true, hd]
    rw [show [lines.getD s []] = lineSlice lines s s from (lineSlice_self lines s hs).symm,
      show jsSpliceInsert lines (s + 1) (lineSlice lines s s) = copiedAt lines s s (s + 1)
        from rfl]
    rw [lineOffsets_getD lines s hs,
      lineOffsets_getD (copiedAt lines s s (s + 1)) (s + 1) (by
        rw [copiedAt_length lines s s (s + 1) (le_refl s) he (by omega)]; omega)]
    simp only [MoveResult.mk.injEq]
    refine ⟨trivial, by omega, by omega⟩

theorem nlFree_movedUp {lines : List Buffer} (hnl : NlFree lines) (s e : Nat) :
    NlFree (movedUp lines s e) := by
  intro l hl
  simp only [movedUp, lineSlice, List.mem_append, List.mem_singleton] at hl
  rcases hl with ((h | h) | h) | h
  · exact hnl l (List.take_subset _ _ h)
  · exact hnl l (List.drop_subset _ _ (List.take_subset _ _ h))
  · rw [h]; exact nlFree_getD hnl _
  · exact hnl l (List.drop_subset _ _ h)

theorem nlFree_movedDown {lines : List Buffer} (hnl : NlFree lines) (s e : Nat) :
    NlFree (movedDown lines s e) := by
  intro l hl
  simp only [movedDown, lineSlice, List.mem_append, List.mem_singleton] at hl
  rcases hl with ((h | h) | h) | h
  · exact hnl l (List.take_subset _ _ h)
  · rw [h]; exact nlFree_getD hnl _
  · exact hnl l (List.drop_subset _ _ (List.take_subset _ _ h))
  · exact hnl l (List.drop_subset _ _ h)

theorem nlFree_copiedAt {lines : List Buffer} (hnl : NlFree lines) (s e p : Nat) :
    NlFree (copiedAt lines s e p) := by
  intro l hl
  simp only [copiedAt, lineSlice, List.mem_append] at hl
  rcases hl with (h | h) | h
  · exact hnl l (List.take_subset _ _ h)
  · exact hnl l (List.drop_subset _ _ (List.take_subset _ _ h))
  · exact hnl l (List.drop_subset _ _ h)

theorem movedUp_ne_nil {lines : List Buffer} (s e : Nat) : movedUp lines s e ≠ [] := by
  simp [movedUp]

theorem movedDown_ne_nil {lines : List Buffer} (s e : Nat) : movedDown lines s e ≠ [] := by
  simp [movedDown]

theorem copiedAt_ne_nil {lines : List Buffer} (s e p : Nat) (hse : s ≤ e)
    (he : e < lines.length) : copiedAt lines s e p ≠ [] := by
  have := lineSlice_length lines s e hse he
  intro h
  have : (copiedAt lines s e p).length = 0 := by rw [h]; rfl
  rw [copiedAt] at this
  simp only [List.length_append] at this
  omega

theorem copiedAt_removed (lines : List Buffer) (s e p : Nat) (hse : s ≤ e)
    (he : e < lines.length) (hp : p ≤ lines.length) :
    (copiedAt lines s e p).take p ++ (copiedAt lines s e p).drop (p + (e - s + 1))
      = lines := by
  have ha : (lines.take p).length = p := by
    simp only [List.length_take]; omega
  have hb : (lineSlice lines s e).length = e - s + 1 := lineSlice_length lines s e hse he
  have h1 : (copiedAt lines s e p).take p = lines.take p := by
    rw [copiedAt]
    simp only [List.append_assoc]
    exact List.take_left' ha
  have h2 : (copiedAt lines s e p).drop (p + (e - s + 1)) = lines.drop p := by
    rw [copiedAt]
    exact List.drop_left' (by simp only [List.length_append, ha, hb])
  rw [h1, h2, List.take_append_drop]

/-- The line list produced by each of the four operations, in explicit form. -/
def resultLines (lines : List Buffer) (s e : Nat) : Direction → Bool → List Buffer
  | Direction.up, true => copiedAt lines s e s
  | Direction.down, true => copiedAt lines s e (e + 1)
  | Direction.up, false => movedUp lines s e
  | Direction.down, false => movedDown lines s e

/-- The source's `newStartLine` remap rule. -/
def newStartIdx (s : Nat) : Direction → Bool → Nat
  | Direction.up, true => s
  | Direction.down, true => s + 1
  | Direction.up, false => s - 1
  | Direction.down, false => s + 1

/-- The source's `newEndLine` remap rule. -/
def newEndIdx (e : Nat) : Direction → Bool → Nat
  | Direction.up, true => e
  | Direction.down, true => e + 1
  | Direction.up, false => e - 1
  | Direction.down, false => e + 1

/-- C1: move round-trip.  For every newline-free line list with at least two
lines and every valid selection spanning the lines `s‥e` (columns within the
line lengths), if the top line is not line 0 then `move(Up)` followed by
`move(Down)` on the returned buffer with the remapped selection reproduces
the original buffer exactly; symmetrically, if the bottom line is not the
last line, `move(Down)` followed by `move(Up)` restores the original
buffer. -/
theorem c1_move_round_trip (lines : List Buffer) (hnl : NlFree lines)
    (s e cs ce : Nat) (hn : 2 ≤ lines.length) (hse : s ≤ e) (he : e < lines.length)
    (hcs : cs ≤ (lines.getD s []).length) (hce : ce ≤ (lines.getD e []).length) :
    (1 ≤ s →
      (moveSelectedLine
        (moveSelectedLine (joinLines lines) (lineStart lines s + cs)
          (lineStart lines e + ce) Direction.up false).buffer
        (moveSelectedLine (joinLines lines) (lineStart lines s + cs)
          (lineStart lines e + ce) Direction.up false).selStart
        (moveSelectedLine (joinLines lines) (lineStart lines s + cs)
          (lineStart lines e + ce) Direction.up false).selEnd
        Direction.down false).buffer = joinLines lines) ∧
    (e + 1 < lines.length →
      (moveSelectedLine
        (moveSelectedLine (joinLines lines) (lineStart lines s + cs)
          (lineStart lines e + ce) Direction.down false).buffer
        (moveSelectedLine (joinLines lines) (lineStart lines s + cs)
          (lineStart lines e + ce) Direction.down false).selStart
        (moveSelectedLine (joinLines lines) (lineStart lines s + cs)
          (lineStart lines e + ce) Direction.down false).selEnd
        Direction.up false).buffer = joinLines lines) := by
  constructor
  · intro hs1
    rw [moveUp_eq lines hnl s e cs ce hs1 hse he hcs hce]
    show (moveSelectedLine (joinLines (movedUp lines s e))
        (lineStart (movedUp lines s e) (s - 1) + cs)
        (lineStart (movedUp lines s e) (e - 1) + (if s = e then cs else ce))
        Direction.down false).buffer = joinLines lines
    rw [moveDown_eq (movedUp lines s e) (nlFree_movedUp hnl s e) (s - 1) (e - 1) cs
        (if s = e then cs else ce) (by omega)
        (by rw [movedUp_length lines s e hs1 hse he]; omega)
        (by rw [movedUp_getD_start lines s e hs1 hse he]; exact hcs)
        (by
          rw [movedUp_getD_end lines s e hs1 hse he]
          rcases eq_or_ne s e with h | h
          · rw [if_pos h, ← h]; exact hcs
          · rw [if_neg h]; exact hce)]
    show joinLines (movedDown (movedUp lines s e) (s - 1) (e - 1)) = joinLines lines
    rw [movedDown_movedUp lines s e hs1 hse he]
  · intro he1
    rw [moveDown_eq lines hnl s e cs ce hse he1 hcs hce]
    show (moveSelectedLine (joinLines (movedDown lines s e))
        (lineStart (movedDown lines s e) (s + 1) + cs)
        (lineStart (movedDown lines s e) (e + 1) + (if s = e then cs else ce))
        Direction.up false).buffer = joinLines lines
    rw [moveUp_eq (movedDown lines s e) (nlFree_movedDown hnl s e) (s + 1) (e + 1) cs
        (if s = e then cs else ce) (by omega) (by omega)
        (by rw [movedDown_length lines s e hse he1]; omega)
        (by rw [movedDown_getD_start lines s e hse he1]; exact hcs)
        (by
          rw [movedDown_getD_end lines s e hse he1]
          rcases eq_or_ne s e with h | h
          · rw [if_pos h, ← h]; exact hcs
          · rw [if_neg h]; exact hce)]
    show joinLines (movedUp (movedDown lines s e) (s + 1) (e + 1)) = joinLines lines
    rw [movedUp_movedDown lines s e hse he1]

/-- C2: boundary no-op.  A move with direction Up whose selection starts on
line 0, or with direction Down whose selection ends on the last line,
returns the input buffer and selection unchanged.  Copy has no boundary
restriction: `copy(Up)` on the first line inserts a duplicate at index 0 and
`copy(Down)` on the last line appends a duplicate at the end. -/
theorem c2_boundary_noop :
    (∀ (value : Buffer) (selS selE : Nat), lineNumberOf value selS = 0 →
      moveSelectedLine value selS selE Direction.up false = ⟨value, selS, selE⟩) ∧
    (∀ (value : Buffer) (selS selE : Nat),
      lineNumberOf value selE = (splitLines value).length - 1 →
      moveSelectedLine value selS selE Direction.down false = ⟨value, selS, selE⟩) ∧
    (∀ (lines : List Buffer) (cs ce : Nat), NlFree lines → lines ≠ [] →
      cs ≤ (lines.getD 0 []).length → ce ≤ (lines.getD 0 []).length →
      splitLines (moveSelectedLine (joinLines lines) (lineStart lines 0 + cs)
          (lineStart lines 0 + ce) Direction.up true).buffer
        = lines.getD 0 [] :: lines) ∧
    (∀ (lines : List Buffer) (cs ce : Nat), NlFree lines → lines ≠ [] →
      cs ≤ (lines.getD (lines.length - 1) []).length →
      ce ≤ (lines.getD (lines.length - 1) []).length →
      splitLines (moveSelectedLine (joinLines lines)
          (lineStart lines (lines.length - 1) + cs)
          (lineStart lines (lines.length - 1) + ce) Direction.down true).buffer
        = lines ++ [lines.getD (lines.length - 1) []]) := by
  refine ⟨?_, ?_, ?_, ?_⟩
  · intro value selS selE h
    simp only [moveSelectedLine]
    rw [if_pos ⟨rfl, Or.inl ⟨trivial, h⟩⟩]
  · intro value selS selE h
    simp only [moveSelectedLine]
    rw [if_pos ⟨rfl, Or.inr ⟨trivial, h⟩⟩]
  · intro lines cs ce hnl hne hcs hce
    have h0 : 0 < lines.length := List.length_pos.mpr hne
    rw [copyUp_eq lines hnl 0 0 cs ce (le_refl 0) h0 hcs hce]
    show splitLines (joinLines (copiedAt lines 0 0 0)) = lines.getD 0 [] :: lines
    have hc : copiedAt lines 0 0 0 = lines.getD 0 [] :: lines := by
      rw [copiedAt, lineSlice_self lines 0 h0]
      simp
    rw [hc, splitLines_joinLines (by
        intro l hl
        rcases List.mem_cons.mp hl with h | h
        · rw [h]; exact nlFree_getD hnl 0
        · exact hnl l h) (by simp)]
  · intro lines cs ce hnl hne hcs hce
    have h0 : 0 < lines.length := List.length_pos.mpr hne
    have hl1 : lines.length - 1 < lines.length := by omega
    rw [copyDown_eq lines hnl (lines.length - 1) (lines.length - 1) cs ce (le_refl _) hl1
      hcs hce]
    show splitLines (joinLines (copiedAt lines (lines.length - 1) (lines.length - 1)
        (lines.length - 1 + 1))) = lines ++ [lines.getD (lines.length - 1) []]
    have hc : copiedAt lines (lines.length - 1) (lines.length - 1) (lines.length - 1 + 1)
        = lines ++ [lines.getD (lines.length - 1) []] := by
      rw [copiedAt, lineSlice_self lines (lines.length - 1) hl1,
        List.take_of_length_le (by omega), List.drop_eq_nil_of_le (by omega),
        List.append_nil]
    rw [hc, splitLines_joinLines (by
        intro l hl
        rcases List.mem_append.mp hl with h | h
        · exact hnl l h
        · rw [List.mem_singleton.mp h]; exact nlFree_getD hnl _) (by simp)]

/-- C3: copy growth.  For every selection spanning `k = e - s + 1 ≥ 1`
lines, `copy(Up)` and `copy(Down)` each produce a buffer with exactly `k`
more lines, and removing the inserted `k`-line block from the new buffer
yields the original buffer. -/
theorem c3_copy_growth (lines : List Buffer) (hnl : NlFree lines)
    (s e cs ce : Nat) (hse : s ≤ e) (he : e < lines.length)
    (hcs : cs ≤ (lines.getD s []).length) (hce : ce ≤ (lines.getD e []).length) :
    (splitLines (moveSelectedLine (joinLines lines) (lineStart lines s + cs)
        (lineStart lines e + ce) Direction.up true).buffer).length
      = lines.length + (e - s + 1) ∧
    (splitLines (moveSelectedLine (joinLines lines) (lineStart lines s + cs)
        (lineStart lines e + ce) Direction.up true).buffer).take s
      ++ (splitLines (moveSelectedLine (joinLines lines) (lineStart lines s + cs)
        (lineStart lines e + ce) Direction.up true).buffer).drop (s + (e - s + 1))
      = lines ∧
    (splitLines (moveSelectedLine (joinLines lines) (lineStart lines s + cs)
        (lineStart lines e + ce) Direction.down true).buffer).length
      = lines.length + (e - s + 1) ∧
    (splitLines (moveSelectedLine (joinLines lines) (lineStart lines s + cs)
        (lineStart lines e + ce) Direction.down true).buffer).take (e + 1)
      ++ (splitLines (moveSelectedLine (joinLines lines) (lineStart lines s + cs)
        (lineStart lines e + ce) Direction.down true).buffer).drop ((e + 1) + (e - s + 1))
      = lines := by
  rw [copyUp_eq lines hnl s e cs ce hse he hcs hce,
    copyDown_eq lines hnl s e cs ce hse he hcs hce]
  show (splitLines (joinLines (copiedAt lines s e s))).length = lines.length + (e - s + 1) ∧
    (splitLines (joinLines (copiedAt lines s e s))).take s
      ++ (splitLines (joinLines (copiedAt lines s e s))).drop (s + (e - s + 1)) = lines ∧
    (splitLines (joinLines (copiedAt lines s e (e + 1)))).length
      = lines.length + (e - s + 1) ∧
    (splitLines (joinLines (copiedAt lines s e (e + 1)))).take (e + 1)
      ++ (splitLines (joinLines (copiedAt lines s e (e + 1)))).drop ((e + 1) + (e - s + 1))
      = lines
  rw [splitLines_joinLines (nlFree_copiedAt hnl s e s) (copiedAt_ne_nil s e s hse he),
    splitLines_joinLines (nlFree_copiedAt hnl s e (e + 1)) (copiedAt_ne_nil s e (e + 1) hse he)]
  refine ⟨copiedAt_length lines s e s hse he (by omega), ?_,
    copiedAt_length lines s e (e + 1) hse he (by omega), ?_⟩
  · exact copiedAt_removed lines s e s hse he (by omega)
  · exact copiedAt_removed lines s e (e + 1) hse he (by omega)

/-- C9: move preserves the line multiset.  Every non-no-op move (either
direction, single- or multi-line) keeps the total line count unchanged and
produces a line sequence that is a permutation of the input's lines. -/
theorem c9_move_preserves_lines (lines : List Buffer) (hnl : NlFree lines)
    (s e cs ce : Nat) (hse : s ≤ e) (he : e < lines.length)
    (hcs : cs ≤ (lines.getD s []).length) (hce : ce ≤ (lines.getD e []).length) :
    (1 ≤ s →
      (splitLines (moveSelectedLine (joinLines lines) (lineStart lines s + cs)
          (lineStart lines e + ce) Direction.up false).buffer).length = lines.length ∧
      (splitLines (moveSelectedLine (joinLines lines) (lineStart lines s + cs)
          (lineStart lines e + ce) Direction.up false).buffer).Perm lines) ∧
    (e + 1 < lines.length →
      (splitLines (moveSelectedLine (joinLines lines) (lineStart lines s + cs)
          (lineStart lines e + ce) Direction.down false).buffer).length = lines.length ∧
      (splitLines (moveSelectedLine (joinLines lines) (lineStart lines s + cs)
          (lineStart lines e + ce) Direction.down false).buffer).Perm lines) := by
  constructor
  · intro hs1
    rw [moveUp_eq lines hnl s e cs ce hs1 hse he hcs hce]
    show (splitLines (joinLines (movedUp lines s e))).length = lines.length ∧
      (splitLines (joinLines (movedUp lines s e))).Perm lines
    rw [splitLines_joinLines (nlFree_movedUp hnl s e) (movedUp_ne_nil s e)]
    exact ⟨movedUp_length lines s e hs1 hse he, movedUp_perm lines s e hs1 hse he⟩
  · intro he1
    rw [moveDown_eq lines hnl s e cs ce hse he1 hcs hce]
    show (splitLines (joinLines (movedDown lines s e))).length = lines.length ∧
      (splitLines (joinLines (movedDown lines s e))).Perm lines
    rw [splitLines_joinLines (nlFree_movedDown hnl s e) (movedDown_ne_nil s e)]
    exact ⟨movedDown_length lines s e hse he1, movedDown_perm lines s e hse he1⟩

theorem buffer_mk (b : Buffer) (x y : Nat) : (MoveResult.mk b x y).buffer = b := rfl

theorem selStart_mk (b : Buffer) (x y : Nat) : (MoveResult.mk b x y).selStart = x := rfl

theorem selEnd_mk (b : Buffer) (x y : Nat) : (MoveResult.mk b x y).selEnd = y := rfl

/-- C7: clamp safety.  For every valid input and every mutating operation,
the remapped selection offsets stay within the line they index into in the
new buffer: each final offset lies between its target line's start offset
and that start offset plus the line's length. -/
theorem c7_clamp_safety (lines : List Buffer) (hnl : NlFree lines)
    (s e cs ce : Nat) (hse : s ≤ e) (he : e < lines.length)
    (hcs : cs ≤ (lines.getD s []).length) (hce : ce ≤ (lines.getD e []).length)
    (direction : Direction) (shouldCopy : Bool)
    (hup : shouldCopy = false → direction = Direction.up → 1 ≤ s)
    (hdn : shouldCopy = false → direction = Direction.down → e + 1 < lines.length) :
    lineStart (resultLines lines s e direction shouldCopy)
        (newStartIdx s direction shouldCopy)
      ≤ (moveSelectedLine (joinLines lines) (lineStart lines s + cs)
          (lineStart lines e + ce) direction shouldCopy).selStart ∧
    (moveSelectedLine (joinLines lines) (lineStart lines s + cs)
        (lineStart lines e + ce) direction shouldCopy).selStart
      ≤ lineStart (resultLines lines s e direction shouldCopy)
          (newStartIdx s direction shouldCopy)
        + ((resultLines lines s e direction shouldCopy).getD
            (newStartIdx s direction shouldCopy) []).length ∧
    lineStart (resultLines lines s e direction shouldCopy)
        (newEndIdx e direction shouldCopy)
      ≤ (moveSelectedLine (joinLines lines) (lineStart lines s + cs)
          (lineStart lines e + ce) direction shouldCopy).selEnd ∧
    (moveSelectedLine (joinLines lines) (lineStart lines s + cs)
        (lineStart lines e + ce) direction shouldCopy).selEnd
      ≤ lineStart (resultLines lines s e direction shouldCopy)
          (newEndIdx e direction shouldCopy)
        + ((resultLines lines s e direction shouldCopy).getD
            (newEndIdx e direction shouldCopy) []).length := by
  cases direction <;> cases shouldCopy
  · have hs1 : 1 ≤ s := hup rfl rfl
    rw [moveUp_eq lines hnl s e cs ce hs1 hse he hcs hce]
    simp only [resultLines, newStartIdx, newEndIdx, selStart_mk, selEnd_mk]
    rw [movedUp_getD_start lines s e hs1 hse he, movedUp_getD_end lines s e hs1 hse he]
    refine ⟨Nat.le_add_right _ _, by omega, Nat.le_add_right _ _, ?_⟩
    rcases eq_or_ne s e with h | h
    · subst h; rw [if_pos rfl]; omega
    · rw [if_neg h]; omega
  · rw [copyUp_eq lines hnl s e cs ce hse he hcs hce]
    simp only [resultLines, newStartIdx, newEndIdx, selStart_mk, selEnd_mk]
    rw [copiedUp_getD_start lines s e hse he, copiedUp_getD_end lines s e hse he]
    refine ⟨Nat.le_add_right _ _, by omega, Nat.le_add_right _ _, ?_⟩
    rcases eq_or_ne s e with h | h
    · subst h; rw [if_pos rfl]; omega
    · rw [if_neg h]; omega
  · have he1 : e + 1 < lines.length := hdn rfl rfl
    rw [moveDown_eq lines hnl s e cs ce hse he1 hcs hce]
    simp only [resultLines, newStartIdx, newEndIdx, selStart_mk, selEnd_mk]
    rw [movedDown_getD_start lines s e hse he1, movedDown_getD_end lines s e hse he1]
    refine ⟨Nat.le_add_right _ _, by omega, Nat.le_add_right _ _, ?_⟩
    rcases eq_or_ne s e with h | h
    · subst h; rw [if_pos rfl]; omega
    · rw [if_neg h]; omega
  · rw [copyDown_eq lines hnl s e cs ce hse he hcs hce]
    simp only [resultLines, newStartIdx, newEndIdx, selStart_mk, selEnd_mk]
    rcases eq_or_ne s e with h | h
    · subst h
      simp only [if_pos rfl, if_true]
      refine ⟨Nat.le_add_right _ _, by omega, Nat.le_add_right _ _, by omega⟩
    · rw [if_neg h, copiedDown_getD_end lines s e hse he]
      refine ⟨Nat.le_add_right _ _, by omega, Nat.le_add_right _ _, by omega⟩

/-- C10: remapped selection ordering.  For every well-formed input
(selection start at or before selection end) and every mutating move or
copy operation, the remapped selection satisfies
`finalSelectionStart ≤ finalSelectionEnd`. -/
theorem c10_selection_ordered (lines : List Buffer) (hnl : NlFree lines)
    (s e cs ce : Nat) (hse : s ≤ e) (he : e < lines.length)
    (hcs : cs ≤ (lines.getD s []).length) (hce : ce ≤ (lines.getD e []).length)
    (hwf : s = e → cs ≤ ce)
    (direction : Direction) (shouldCopy : Bool)
    (hup : shouldCopy = false → direction = Direction.up → 1 ≤ s)
    (hdn : shouldCopy = false → direction = Direction.down → e + 1 < lines.length) :
    (moveSelectedLine (joinLines lines) (lineStart lines s + cs)
        (lineStart lines e + ce) direction shouldCopy).selStart
      ≤ (moveSelectedLine (joinLines lines) (lineStart lines s + cs)
          (lineStart lines e + ce) direction shouldCopy).selEnd := by
  cases direction <;> cases shouldCopy
  · have hs1 : 1 ≤ s := hup rfl rfl
    rw [moveUp_eq lines hnl s e cs ce hs1 hse he hcs hce]
    simp only [selStart_mk, selEnd_mk]
    rcases eq_or_ne s e with h | h
    · subst h; simp
    · rw [if_neg h]
      have hlt : s < e := by omega
      have f1 := lineStart_succ (movedUp lines s e) (s - 1) (by
        rw [movedUp_length lines s e hs1 hse he]; omega)
      have f2 := lineStart_mono (movedUp lines s e) (show s - 1 + 1 ≤ e - 1 from by omega)
      rw [movedUp_getD_start lines s e hs1 hse he] at f1
      omega
  · rw [copyUp_eq lines hnl s e cs ce hse he hcs hce]
    simp only [selStart_mk, selEnd_mk]
    rcases eq_or_ne s e with h | h
    · subst h; simp
    · rw [if_neg h]
      have hlt : s < e := by omega
      have f1 := lineStart_succ (copiedAt lines s e s) s (by
        rw [copiedAt_length lines s e s hse he (by omega)]; omega)
      have f2 := lineStart_mono (copiedAt lines s e s) (show s + 1 ≤ e from by omega)
      rw [copiedUp_getD_start lines s e hse he] at f1
      omega
  · have he1 : e + 1 < lines.length := hdn rfl rfl
    rw [moveDown_eq lines hnl s e cs ce hse he1 hcs hce]
    simp only [selStart_mk, selEnd_mk]
    rcases eq_or_ne s e with h | h
    · subst h; simp
    · rw [if_neg h]
      have hlt : s < e := by omega
      have f1 := lineStart_succ (movedDown lines s e) (s + 1) (by
        rw [movedDown_length lines s e hse he1]; omega)
      have f2 := lineStart_mono (movedDown lines s e) (show s + 1 + 1 ≤ e + 1 from by omega)
      rw [movedDown_getD_start lines s e hse he1] at f1
      omega
  · rw [copyDown_eq lines hnl s e cs ce hse he hcs hce]
    simp only [selStart_mk, selEnd_mk]
    rcases eq_or_ne s e with h | h
    · subst h; simp
    · rw [if_neg h]
      have hlt : s < e := by omega
      have f1 := lineStart_succ (copiedAt lines s e (e + 1)) (s + 1) (by
        rw [copiedAt_length lines s e (e + 1) hse he (by omega)]; omega)
      have f2 := lineStart_mono (copiedAt lines s e (e + 1))
        (show s + 1 + 1 ≤ e + 1 from by omega)
      omega

theorem jsSpliceInsert_nil (xs : List Buffer) (p : Nat) : jsSpliceInsert xs p [] = xs := by
  rw [jsSpliceInsert, List.append_nil, List.take_append_drop]

/-- C4 counterexample: `copy(Down)` on the full selection of `"one\ntwo"`
does not produce the selection 8‥15 claimed by the spec. -/
theorem c4_counterexample :
    ¬ ((moveSelectedLine ['o', 'n', 'e', '\n', 't', 'w', 'o'] 0 7
        Direction.down true).selStart = 8 ∧
      (moveSelectedLine ['o', 'n', 'e', '\n', 't', 'w', 'o'] 0 7
        Direction.down true).selEnd = 15) := by
  decide

/-- C4 amended: the buffer doubles as claimed, but the remapped selection is
4‥11 (the `startLine + 1` rule shifts both ends by one line, so the selection
spans lines 1–2, not the duplicate block). -/
theorem c4_scenario_b :
    moveSelectedLine ['o', 'n', 'e', '\n', 't', 'w', 'o'] 0 7 Direction.down true
      = ⟨['o', 'n', 'e', '\n', 't', 'w', 'o', '\n', 'o', 'n', 'e', '\n', 't', 'w', 'o'],
          4, 11⟩ := by
  decide

/-- C5 counterexample: the range 0‥2 inside the first line of `"ab\ncd"`,
moved down, does not keep its width: the claimed end offset 5 is not
produced. -/
theorem c5_counterexample :
    ¬ (moveSelectedLine ['a', 'b', '\n', 'c', 'd'] 0 2
        Direction.down false).selEnd = 5 := by
  decide

/-- C5 amended: for any single-line selection (caret or range), the remapped
selection collapses to a caret: the final end equals the final start. -/
theorem c5_single_line_collapses (lines : List Buffer) (hnl : NlFree lines)
    (s cs ce : Nat) (hs : s < lines.length)
    (hcs : cs ≤ (lines.getD s []).length) (hce : ce ≤ (lines.getD s []).length)
    (direction : Direction) (shouldCopy : Bool)
    (hup : shouldCopy = false → direction = Direction.up → 1 ≤ s)
    (hdn : shouldCopy = false → direction = Direction.down → s + 1 < lines.length) :
    (moveSelectedLine (joinLines lines) (lineStart lines s + cs)
        (lineStart lines s + ce) direction shouldCopy).selEnd
      = (moveSelectedLine (joinLines lines) (lineStart lines s + cs)
          (lineStart lines s + ce) direction shouldCopy).selStart := by
  cases direction <;> cases shouldCopy
  · have hs1 : 1 ≤ s := hup rfl rfl
    rw [moveUp_eq lines hnl s s cs ce hs1 (le_refl s) hs hcs hce]
    simp only [selStart_mk, selEnd_mk, if_pos rfl, if_true]
  · rw [copyUp_eq lines hnl s s cs ce (le_refl s) hs hcs hce]
    simp only [selStart_mk, selEnd_mk, if_pos rfl, if_true]
  · have he1 : s + 1 < lines.length := hdn rfl rfl
    rw [moveDown_eq lines hnl s s cs ce (le_refl s) he1 hcs hce]
    simp only [selStart_mk, selEnd_mk, if_pos rfl, if_true]
  · rw [copyDown_eq lines hnl s s cs ce (le_refl s) hs hcs hce]
    simp only [selStart_mk, selEnd_mk, if_pos rfl, if_true]

/-- C6 counterexample: the engine is not invariant under swapping a reversed
selection's offsets: on `"a\nb"` with offsets (2, 0), `copy(Up)` differs
from the normalized (0, 2) call. -/
theorem c6_counterexample :
    ¬ (moveSelectedLine ['a', '\n', 'b'] 2 0 Direction.up true
        = moveSelectedLine ['a', '\n', 'b'] (min 2 0) (max 2 0) Direction.up true) := by
  decide

/-- C6 amended: the engine performs no normalization; when the two offsets
are reversed across different lines, the computed line slice is empty and the
buffer is returned unchanged by every operation (unlike the normalized
call). -/
theorem c6_reversed_buffer_unchanged (value : Buffer) (selS selE : Nat)
    (hrev : lineNumberOf value selE < lineNumberOf value selS)
    (direction : Direction) (shouldCopy : Bool) :
    (moveSelectedLine value selS selE direction shouldCopy).buffer = value := by
  have hd : (decide (lineNumberOf value selS ≠ lineNumberOf value selE) = true) = True :=
    eq_true (decide_eq_true (by omega))
  simp only [moveSelectedLine]
  split
  · rfl
  · rw [buffer_mk]
    cases shouldCopy
    · simp only [Bool.false_eq_true, if_false, hd, if_true]
      rw [show ((lineNumberOf value selE : Int) - (lineNumberOf value selS : Int) + 1).toNat
          = 0 from by omega,
        List.take_zero, jsSpliceInsert_nil, Nat.add_zero, List.take_append_drop,
        joinLines_splitLines]
    · simp only [Bool.false_eq_true, if_false, hd, if_true]
      rw [show lineNumberOf value selE + 1 - lineNumberOf value selS = 0 from by omega,
        List.take_zero, jsSpliceInsert_nil, joinLines_splitLines]

/-- C8: viewport scroll policy.  With `lineHeight = contentHeight / lineCount`
and margin `buffer = 2 * lineHeight`, the computed scroll target equals
`max 0 (targetLine*lineHeight - buffer)` when moving Up with the target
above the margin band, equals
`min (contentHeight - viewportHeight)
  (targetLine*lineHeight - viewportHeight + lineHeight + buffer)` when
moving Down with the target below the band, and is the unchanged
`scrollTop` in every other case. -/
theorem c8_scroll_policy (direction : Direction)
    (scrollTop scrollHeight clientHeight lineHeight buffer : ℚ)
    (numLines newStartLine : Nat)
    (hlh : lineHeight = scrollHeight / (numLines : ℚ))
    (hbuf : buffer = 2 * lineHeight) :
    (direction = Direction.up →
      lineHeight * (newStartLine : ℚ) - buffer < scrollTop →
      computeScrollTop direction scrollTop scrollHeight clientHeight numLines newStartLine
        = max 0 (lineHeight * (newStartLine : ℚ) - buffer)) ∧
    (direction = Direction.down →
      lineHeight * (newStartLine : ℚ) + lineHeight + buffer > scrollTop + clientHeight →
      computeScrollTop direction scrollTop scrollHeight clientHeight numLines newStartLine
        = min (scrollHeight - clientHeight)
            (lineHeight * (newStartLine : ℚ) - clientHeight + lineHeight + buffer)) ∧
    (¬ (direction = Direction.up ∧
          lineHeight * (newStartLine : ℚ) - buffer < scrollTop) →
      ¬ (direction = Direction.down ∧
          lineHeight * (newStartLine : ℚ) + lineHeight + buffer > scrollTop + clientHeight) →
      computeScrollTop direction scrollTop scrollHeight clientHeight numLines newStartLine
        = scrollTop) := by
  subst hlh
  subst hbuf
  refine ⟨?_, ?_, ?_⟩
  · intro h1 h2
    subst h1
    rw [computeScrollTop, if_pos ⟨rfl, by linarith⟩]
    congr 1
    ring
  · intro h1 h2
    subst h1
    rw [computeScrollTop, if_neg (by rintro ⟨h, -⟩; exact Direction.noConfusion h),
      if_pos ⟨rfl, by linarith⟩]
    congr 1
    ring
  · intro h1 h2
    rw [computeScrollTop,
      if_neg (by rintro ⟨ha, hb⟩; exact h1 ⟨ha, by linarith⟩),
      if_neg (by rintro ⟨ha, hb⟩; exact h2 ⟨ha, by linarith⟩)]

/-- Witness for C1 at a concrete three-line buffer. -/
theorem c1_witness :
    (moveSelectedLine
      (moveSelectedLine (joinLines [['a'], ['b', 'b'], ['c']])
        (lineStart [['a'], ['b', 'b'], ['c']] 1 + 1)
        (lineStart [['a'], ['b', 'b'], ['c']] 1 + 1) Direction.up false).buffer
      (moveSelectedLine (joinLines [['a'], ['b', 'b'], ['c']])
        (lineStart [['a'], ['b', 'b'], ['c']] 1 + 1)
        (lineStart [['a'], ['b', 'b'], ['c']] 1 + 1) Direction.up false).selStart
      (moveSelectedLine (joinLines [['a'], ['b', 'b'], ['c']])
        (lineStart [['a'], ['b', 'b'], ['c']] 1 + 1)
        (lineStart [['a'], ['b', 'b'], ['c']] 1 + 1) Direction.up false).selEnd
      Direction.down false).buffer = joinLines [['a'], ['b', 'b'], ['c']] :=
  (c1_move_round_trip [['a'], ['b', 'b'], ['c']] (by decide) 1 1 1 1 (by decide) (by decide)
    (by decide) (by decide) (by decide)).1 (by decide)

/-- Witness for C2: each of the four boundary facts at a concrete buffer. -/
theorem c2_witness :
    moveSelectedLine ['a', '\n', 'b'] 0 1 Direction.up false = ⟨['a', '\n', 'b'], 0, 1⟩ ∧
    moveSelectedLine ['a', '\n', 'b'] 0 2 Direction.down false = ⟨['a', '\n', 'b'], 0, 2⟩ ∧
    splitLines (moveSelectedLine (joinLines [['a'], ['b']])
        (lineStart [['a'], ['b']] 0 + 0) (lineStart [['a'], ['b']] 0 + 1)
        Direction.up true).buffer
      = ([['a'], ['b']] : List Buffer).getD 0 [] :: [['a'], ['b']] ∧
    splitLines (moveSelectedLine (joinLines [['a'], ['b']])
        (lineStart [['a'], ['b']] (([['a'], ['b']] : List Buffer).length - 1) + 1)
        (lineStart [['a'], ['b']] (([['a'], ['b']] : List Buffer).length - 1) + 1)
        Direction.down true).buffer
      = [['a'], ['b']] ++ [([['a'], ['b']] : List Buffer).getD
          (([['a'], ['b']] : List Buffer).length - 1) []] :=
  ⟨c2_boundary_noop.1 ['a', '\n', 'b'] 0 1 (by decide),
    c2_boundary_noop.2.1 ['a', '\n', 'b'] 0 2 (by decide),
    c2_boundary_noop.2.2.1 [['a'], ['b']] 0 1 (by decide) (by decide) (by decide) (by decide),
    c2_boundary_noop.2.2.2 [['a'], ['b']] 1 1 (by decide) (by decide) (by decide) (by decide)⟩

/-- Witness for C3 at a concrete two-line block inside a three-line buffer. -/
theorem c3_witness :
    (splitLines (moveSelectedLine (joinLines [['a'], ['b', 'b'], ['c']])
        (lineStart [['a'], ['b', 'b'], ['c']] 0 + 0)
        (lineStart [['a'], ['b', 'b'], ['c']] 1 + 0) Direction.up true).buffer).length
      = ([['a'], ['b', 'b'], ['c']] : List Buffer).length + (1 - 0 + 1) ∧
    (splitLines (moveSelectedLine (joinLines [['a'], ['b', 'b'], ['c']])
        (lineStart [['a'], ['b', 'b'], ['c']] 0 + 0)
        (lineStart [['a'], ['b', 'b'], ['c']] 1 + 0) Direction.up true).buffer).take 0
      ++ (splitLines (moveSelectedLine (joinLines [['a'], ['b', 'b'], ['c']])
        (lineStart [['a'], ['b', 'b'], ['c']] 0 + 0)
        (lineStart [['a'], ['b', 'b'], ['c']] 1 + 0) Direction.up true).buffer).drop
          (0 + (1 - 0 + 1))
      = [['a'], ['b', 'b'], ['c']] ∧
    (splitLines (moveSelectedLine (joinLines [['a'], ['b', 'b'], ['c']])
        (lineStart [['a'], ['b', 'b'], ['c']] 0 + 0)
        (lineStart [['a'], ['b', 'b'], ['c']] 1 + 0) Direction.down true).buffer).length
      = ([['a'], ['b', 'b'], ['c']] : List Buffer).length + (1 - 0 + 1) ∧
    (splitLines (moveSelectedLine (joinLines [['a'], ['b', 'b'], ['c']])
        (lineStart [['a'], ['b', 'b'], ['c']] 0 + 0)
        (lineStart [['a'], ['b', 'b'], ['c']] 1 + 0) Direction.down true).buffer).take (1 + 1)
      ++ (splitLines (moveSelectedLine (joinLines [['a'], ['b', 'b'], ['c']])
        (lineStart [['a'], ['b', 'b'], ['c']] 0 + 0)
        (lineStart [['a'], ['b', 'b'], ['c']] 1 + 0) Direction.down true).buffer).drop
          ((1 + 1) + (1 - 0 + 1))
      = [['a'], ['b', 'b'], ['c']] :=
  c3_copy_growth [['a'], ['b', 'b'], ['c']] (by decide) 0 1 0 0 (by decide) (by decide)
    (by decide) (by decide)

/-- Witness for C5 (amended) at a concrete single-line range. -/
theorem c5_witness :
    (moveSelectedLine (joinLines [['a'], ['b', 'b'], ['c']])
        (lineStart [['a'], ['b', 'b'], ['c']] 1 + 0)
        (lineStart [['a'], ['b', 'b'], ['c']] 1 + 2) Direction.up true).selEnd
      = (moveSelectedLine (joinLines [['a'], ['b', 'b'], ['c']])
          (lineStart [['a'], ['b', 'b'], ['c']] 1 + 0)
          (lineStart [['a'], ['b', 'b'], ['c']] 1 + 2) Direction.up true).selStart :=
  c5_single_line_collapses [['a'], ['b', 'b'], ['c']] (by decide) 1 0 2 (by decide) (by decide)
    (by decide) Direction.up true (by decide) (by decide)

/-- Witness for C6 (amended) at a concrete reversed selection. -/
theorem c6_witness :
    (moveSelectedLine ['a', '\n', 'b'] 2 0 Direction.up true).buffer = ['a', '\n', 'b'] :=
  c6_reversed_buffer_unchanged ['a', '\n', 'b'] 2 0 (by decide) Direction.up true

/-- Witness for C7 at a concrete move-up of the middle line. -/
theorem c7_witness :
    lineStart (resultLines [['a'], ['b', 'b'], ['c']] 1 1 Direction.up false)
        (newStartIdx 1 Direction.up false)
      ≤ (moveSelectedLine (joinLines [['a'], ['b', 'b'], ['c']])
          (lineStart [['a'], ['b', 'b'], ['c']] 1 + 2)
          (lineStart [['a'], ['b', 'b'], ['c']] 1 + 2) Direction.up false).selStart ∧
    (moveSelectedLine (joinLines [['a'], ['b', 'b'], ['c']])
        (lineStart [['a'], ['b', 'b'], ['c']] 1 + 2)
        (lineStart [['a'], ['b', 'b'], ['c']] 1 + 2) Direction.up false).selStart
      ≤ lineStart (resultLines [['a'], ['b', 'b'], ['c']] 1 1 Direction.up false)
          (newStartIdx 1 Direction.up false)
        + ((resultLines [['a'], ['b', 'b'], ['c']] 1 1 Direction.up false).getD
            (newStartIdx 1 Direction.up false) []).length ∧
    lineStart (resultLines [['a'], ['b', 'b'], ['c']] 1 1 Direction.up false)
        (newEndIdx 1 Direction.up false)
      ≤ (moveSelectedLine (joinLines [['a'], ['b', 'b'], ['c']])
          (lineStart [['a'], ['b', 'b'], ['c']] 1 + 2)
          (lineStart [['a'], ['b', 'b'], ['c']] 1 + 2) Direction.up false).selEnd ∧
    (moveSelectedLine (joinLines [['a'], ['b', 'b'], ['c']])
        (lineStart [['a'], ['b', 'b'], ['c']] 1 + 2)
        (lineStart [['a'], ['b', 'b'], ['c']] 1 + 2) Direction.up false).selEnd
      ≤ lineStart (resultLines [['a'], ['b', 'b'], ['c']] 1 1 Direction.up false)
          (newEndIdx 1 Direction.up false)
        + ((resultLines [['a'], ['b', 'b'], ['c']] 1 1 Direction.up false).getD
            (newEndIdx 1 Direction.up false) []).length :=
  c7_clamp_safety [['a'], ['b', 'b'], ['c']] (by decide) 1 1 2 2 (by decide) (by decide)
    (by decide) (by decide) Direction.up false (by decide) (by decide)

/-- Witness for C8 at concrete scroll geometry. -/
theorem c8_witness :
    computeScrollTop Direction.up 100 300 50 3 0
      = max 0 (100 * ((0 : Nat) : ℚ) - 200) :=
  (c8_scroll_policy Direction.up 100 300 50 100 200 3 0 (by norm_num) (by norm_num)).1
    rfl (by norm_num)

/-- Witness for C9 at a concrete move-up. -/
theorem c9_witness :
    (splitLines (moveSelectedLine (joinLines [['a'], ['b', 'b'], ['c']])
        (lineStart [['a'], ['b', 'b'], ['c']] 1 + 0)
        (lineStart [['a'], ['b', 'b'], ['c']] 1 + 0) Direction.up false).buffer).length
      = ([['a'], ['b', 'b'], ['c']] : List Buffer).length ∧
    (splitLines (moveSelectedLine (joinLines [['a'], ['b', 'b'], ['c']])
        (lineStart [['a'], ['b', 'b'], ['c']] 1 + 0)
        (lineStart [['a'], ['b', 'b'], ['c']] 1 + 0) Direction.up false).buffer).Perm
      [['a'], ['b', 'b'], ['c']] :=
  (c9_move_preserves_lines [['a'], ['b', 'b'], ['c']] (by decide) 1 1 0 0 (by decide)
    (by decide) (by decide) (by decide)).1 (by decide)

/-- Witness for C10 at a concrete multi-line move-down. -/
theorem c10_witness :
    (moveSelectedLine (joinLines [['a'], ['b', 'b'], ['c']])
        (lineStart [['a'], ['b', 'b'], ['c']] 0 + 1)
        (lineStart [['a'], ['b', 'b'], ['c']] 1 + 0) Direction.down false).selStart
      ≤ (moveSelectedLine (joinLines [['a'], ['b', 'b'], ['c']])
          (lineStart [['a'], ['b', 'b'], ['c']] 0 + 1)
          (lineStart [['a'], ['b', 'b'], ['c']] 1 + 0) Direction.down false).selEnd :=
  c10_selection_ordered [['a'], ['b', 'b'], ['c']] (by decide) 0 1 1 0 (by decide) (by decide)
    (by decide) (by decide) (by decide) Direction.down false (by decide) (by decide)

end PromptArea
